import Mathlib

/-!
Verification of the frame-assembly layer of `mike1808/h264decoder`
(`src/decoder/decoder.go`).

The repository is a thin adapter around an external codec library: all
bitstream parsing, picture decoding and pixel conversion are calls into
opaque native code.  We embed the adapter's own control flow faithfully and
parametrise it by an abstract engine, a record of the external calls the
adapter makes (`AvParserParse2` + `pkt.Size()`, `AvcodecDecodeVideo2`, and
the conversion path `PredictSize`/`AvMalloc`/`Convert`/`newFrame`).  Engine
state is threaded explicitly; the Go code mutates it through pointers.
-/

namespace H264

/-- Type `Frame` from decoder.go: decoded picture bytes plus geometry.
`Data` is the byte slice, `Width`/`Height`/`Stride` the reported geometry. -/
structure Frame where
  Data : List Nat
  Width : Int
  Height : Int
  Stride : Int
deriving DecidableEq

/-- Errors produced inside `Decoder.decodeFrameImpl`:
`errors.New("error decoding frame")` from `decodeFrame`, and the error
returned by `converter.Convert`. -/
inductive DecodeErr where
  | decodeErr
  | convertErr
deriving DecidableEq

/-- The external codec calls made by `Decoder.decodeFrameImpl`, as functions
of an abstract engine state `σ` (the parser context, codec context, packet
and scratch frame that the Go code mutates in place).

* `parse` is `h.parse(data, size)` followed by the read `h.pkt.Size() > 0`
  (`isFrameAvailable`): it returns the new state, the byte count `nread`
  reported by `AvParserParse2`, and whether a complete packet is pending.
* `decodeFrame` is `h.decodeFrame()`: `AvcodecDecodeVideo2`; `false` means
  it reported `nread < 0 || gotPicture == 0`, i.e. the Go error.
* `convert` is the whole conversion tail (`PredictSize`, `AvMalloc`,
  `converter.Convert`, `newFrame`): `none` means `Convert` returned an
  error, `some f` the assembled `*Frame`. -/
structure Engine (σ : Type) where
  parse : σ → List Nat → σ × Int × Bool
  decodeFrame : σ → σ × Bool
  convert : σ → σ × Option Frame

variable {σ : Type}

/-- Function `Decoder.decodeFrameImpl` from decoder.go, lines 176-200: parse the
remaining bytes; if no packet is available return `(nil, nread, false, nil)`;
otherwise decode, then convert, propagating each failure with the `nread`
reported by the parser. -/
def decodeFrameImpl (E : Engine σ) (s : σ) (data : List Nat) :
    σ × Option Frame × Int × Bool × Option DecodeErr :=
  match E.parse s data with
  | (s1, nread, avail) =>
    if !avail then (s1, none, nread, false, none)
    else
      match E.decodeFrame s1 with
      | (s2, false) => (s2, none, nread, true, some .decodeErr)
      | (s2, true) =>
        match E.convert s2 with
        | (s3, none) => (s3, none, nread, true, some .convertErr)
        | (s3, some f) => (s3, some f, nread, true, none)

/-- Outcome of one `Decode` call.
* `ok frames` — the return `(frames, nil)`.
* `fatal frames e` — the return at line 116, `return nil, err`; the recorded
  list is the one the code actually returns (always `[]`, i.e. Go `nil`).
* `panic` — Go would panic at `data = data[nread:]` because `nread` is
  negative or exceeds `len(data)`.
* `spin` — the fuel ran out with bytes still pending: the `for` loop did not
  finish within the given number of iterations. -/
inductive DecodeOut where
  | ok (frames : List Frame)
  | fatal (frames : List Frame) (e : DecodeErr)
  | panic
  | spin
deriving DecidableEq

/-- The `for len(data) > 0` loop of `Decoder.Decode` (decoder.go lines
112-124), with the loop's local `frames` accumulator made explicit and a
fuel bound standing for the number of iterations executed.  Each iteration:
call `decodeFrameImpl`; if `err != nil && nread < 0` return `(nil, err)`;
append the frame when `isFrameAvailable && frame != nil`; reslice
`data = data[nread:]`. -/
def decodeLoop (E : Engine σ) : Nat → σ → List Nat → List Frame → σ × DecodeOut
  | 0, s, data, acc => if data = [] then (s, .ok acc) else (s, .spin)
  | fuel+1, s, data, acc =>
    if data = [] then (s, .ok acc)
    else
      match decodeFrameImpl E s data with
      | (s', fr, nread, avail, some e) =>
        if nread < 0 then (s', .fatal [] e)
        else if (data.length : Int) < nread then (s', .panic)
        else
          decodeLoop E fuel s' (data.drop nread.toNat)
            (if avail && fr.isSome then acc ++ fr.toList else acc)
      | (s', fr, nread, avail, none) =>
        if nread < 0 then (s', .panic)
        else if (data.length : Int) < nread then (s', .panic)
        else
          decodeLoop E fuel s' (data.drop nread.toNat)
            (if avail && fr.isSome then acc ++ fr.toList else acc)

/-- Function `Decoder.Decode` (decoder.go lines 109-127): run the scan loop starting
from the empty (Go `nil`) frame list. -/
def Decode (E : Engine σ) (fuel : Nat) (s : σ) (data : List Nat) :
    σ × DecodeOut :=
  decodeLoop E fuel s data []

/-- Wrap an engine so that every external call is counted: used to state
that a `Decode` call on an empty chunk performs no engine call at all. -/
def countCalls (E : Engine σ) : Engine (σ × Nat) where
  parse := fun p d =>
    match E.parse p.1 d with
    | (s', n, b) => ((s', p.2 + 1), n, b)
  decodeFrame := fun p =>
    match E.decodeFrame p.1 with
    | (s', b) => ((s', p.2 + 1), b)
  convert := fun p =>
    match E.convert p.1 with
    | (s', f) => ((s', p.2 + 1), f)

/-- The loop of `Decode` never finishes on this input: every fuel bound is
exhausted with bytes still pending, i.e. the Go `for` loop runs forever. -/
def DecodeDiverges (E : Engine σ) (s : σ) (data : List Nat) : Prop :=
  ∀ fuel : Nat, (Decode E fuel s data).2 = DecodeOut.spin

/-- An engine whose first parse consumes one byte with a packet available and
whose decode step succeeds (producing a frame), but whose second parse
reports negative progress with the decode step failing.  State counts the
parse calls made so far. -/
def fatalAfterFrameEngine : Engine Nat where
  parse := fun s _ => (s + 1, if s = 0 then 1 else -1, true)
  decodeFrame := fun s => (s, s == 1)
  convert := fun s => (s, some ⟨[7], 1, 1, 3⟩)

/-- An engine that consumes the whole remainder with a packet available but
whose decode step always fails: a unit-local decode failure with
non-negative progress. -/
def unitFailureEngine : Engine Nat where
  parse := fun s d => (s + 1, (d.length : Int), true)
  decodeFrame := fun s => (s, false)
  convert := fun s => (s, none)

/-- An engine that consumes zero bytes and reports no pending packet: the
"no progress at all" parse outcome. -/
def zeroProgressEngine : Engine Nat where
  parse := fun s _ => (s, 0, false)
  decodeFrame := fun s => (s, true)
  convert := fun s => (s, none)

/-- An engine that always consumes the whole remainder and never reports a
complete unit: a chunk containing no unit boundary. -/
def consumeAllEngine : Engine Nat where
  parse := fun s d => (s, (d.length : Int), false)
  decodeFrame := fun s => (s, true)
  convert := fun s => (s, none)

/-! ### Byte-stream engines, for chunk-size invariance (C3)

The external parser (`AvParserParse2`) keeps its own buffer of pending
bytes across calls, so its observable behaviour is a deterministic function
of the byte stream it has been fed, not of the chunk boundaries (spec §4.2
steps 1-2: the engine "consumes a prefix" and "the bytes are retained in
the engine's internal, allocation-owned buffer for the next call").  A
`StreamEngine` is such an engine presented byte by byte: `feed` pushes one
byte and reports whether a complete coded unit just became available. -/

/-- A chunk-oblivious codec engine: `feed` consumes one byte of the
elementary stream and reports whether a complete unit boundary was just
recognised; `decodeFrame` and `convert` are as in `Engine`. -/
structure StreamEngine (σ : Type) where
  feed : σ → Nat → σ × Bool
  decodeFrame : σ → σ × Bool
  convert : σ → σ × Option Frame

/-- What one `AvParserParse2` call does for a byte-stream engine: feed bytes
of the remainder one at a time, stopping as soon as a unit boundary is
found; report the new state, the number of bytes consumed, and whether a
packet is pending. -/
def parseBytes (E : StreamEngine σ) : σ → List Nat → σ × Nat × Bool
  | s, [] => (s, 0, false)
  | s, b :: rest =>
    match E.feed s b with
    | (s1, true) => (s1, 1, true)
    | (s1, false) =>
      let r := parseBytes E s1 rest
      (r.1, r.2.1 + 1, r.2.2)

/-- View a byte-stream engine through the `Engine` interface used by the
decoder's scan loop. -/
def toEngine (E : StreamEngine σ) : Engine σ where
  parse := fun s d =>
    let r := parseBytes E s d
    (r.1, (r.2.1 : Int), r.2.2)
  decodeFrame := E.decodeFrame
  convert := E.convert

/-- Decode-and-convert processing of one complete unit, as performed by the
tail of `decodeFrameImpl` once a packet is pending: the frames contributed
are `[f]` on full success and `[]` when the decode or conversion step
fails (both failures carry non-negative progress and are swallowed by the
loop). -/
def unitStep (E : StreamEngine σ) (s : σ) : σ × List Frame :=
  match E.decodeFrame s with
  | (s2, false) => (s2, [])
  | (s2, true) =>
    match E.convert s2 with
    | (s3, none) => (s3, [])
    | (s3, some f) => (s3, [f])

/-- Reference byte-level run: feed the whole stream one byte at a time,
processing a unit at every reported boundary.  This is chunk-free by
construction; `Decode` is proved to linearise to it. -/
def runBytes (E : StreamEngine σ) : σ → List Nat → σ × List Frame
  | s, [] => (s, [])
  | s, b :: rest =>
    match E.feed s b with
    | (s1, false) => runBytes E s1 rest
    | (s1, true) =>
      let u := unitStep E s1
      let r := runBytes E u.1 rest
      (r.1, u.2 ++ r.2)

/-- Feed a partition of the stream to successive `Decode` calls on the same
decoder (state threaded through), each call given enough fuel for its
chunk, concatenating the outputs in order. -/
def decodeChunks (E : StreamEngine σ) : σ → List (List Nat) → σ × List Frame
  | s, [] => (s, [])
  | s, c :: cs =>
    match Decode (toEngine E) c.length s c with
    | (s', .ok fs) =>
      let r := decodeChunks E s' cs
      (r.1, fs ++ r.2)
    | (s', _) => (s', [])

/-- A concrete byte-stream engine used as a sanity check: a unit boundary
every third byte, decoding and conversion always succeeding. -/
def boundaryEvery3 : StreamEngine Nat where
  feed := fun s _ => (s + 1, (s + 1) % 3 == 0)
  decodeFrame := fun s => (s, true)
  convert := fun s => (s, some ⟨[s], 2, 2, 6⟩)

/-! ### Construction (`New`, decoder.go lines 48-105) for C4 and C8

`New` is a chain of external allocation/initialisation calls, each of which
can fail; the environment records which of them succeed.  The model tracks
which native resources have been acquired by the call and which have been
released: the Go code contains no release call on any failure path. -/

/-- Native resources acquired by `New`: the codec context
(`AvcodecAllocContext3`), the parser context (`AvParserInit`), the scratch
frame (`AvFrameAlloc`), the packet (`AvPacketAlloc`) and the converter's
scratch frame (`AvFrameAlloc` inside `newConverter`). -/
inductive Resource where
  | context
  | parserCtx
  | frameRes
  | pktRes
  | converterFrame
deriving DecidableEq

/-- Outcomes of the external calls `New` makes, in source order. -/
structure NewEnv where
  findOk : Bool
  allocCtxOk : Bool
  openOk : Bool
  parserInitOk : Bool
  frameAllocOk : Bool
  pktAllocOk : Bool
  convFrameOk : Bool
deriving DecidableEq

/-- The error values `New` can return (`errors.New(...)` messages in
decoder.go; `cannotAllocateFrame` is also the message of `newConverter`'s
failure, which `New` returns verbatim). -/
inductive NewErr where
  | cannotFindDecoder
  | cannotAllocateContext
  | cannotOpenContent
  | cannotInitParser
  | cannotAllocateFrame
  | cannotAllocatePacket
  | unsupportedCompression
  | unsupportedPixelFormat
deriving DecidableEq

/-- Constant `PixelFormatRGB = avcodec.AV_PIX_FMT_RGB24` (value 2 in the
wrapped library). -/
def PixelFormatRGB : Int := 2

/-- Constant `av_PIX_FMT_BGR24 = 3` (decoder.go line 29). -/
def av_PIX_FMT_BGR24 : Int := 3

/-- Constant `PixelFormatBGR = av_PIX_FMT_BGR24`. -/
def PixelFormatBGR : Int := av_PIX_FMT_BGR24

/-- Constant `H264 = Compression(avcodec.AV_CODEC_ID_H264)` (value 27). -/
def compH264 : Int := 27

/-- Constant `H265 = Compression(avcodec.AV_CODEC_ID_H265)` (value 173). -/
def compH265 : Int := 173

/-- Result of a `New` call: whether a `*Decoder` was returned, the error,
the resources acquired during the call and still held when it returns, and
the resources released during the call. -/
structure NewResult where
  dec : Bool
  err : Option NewErr
  allocated : List Resource
  freed : List Resource
deriving DecidableEq

/-- Function `New` (decoder.go lines 48-105), in source order: find decoder,
allocate context, open it, init the parser, allocate the scratch frame and
the packet, then validate the compression, then the pixel format, then
build the converter (which allocates its own scratch frame).  No failure
path frees anything, so `allocated` accumulates and `freed` stays empty. -/
def New (env : NewEnv) (pxlFmt cpr : Int) : NewResult :=
  if env.findOk = false then ⟨false, some .cannotFindDecoder, [], []⟩
  else if env.allocCtxOk = false then ⟨false, some .cannotAllocateContext, [], []⟩
  else if env.openOk = false then ⟨false, some .cannotOpenContent, [.context], []⟩
  else if env.parserInitOk = false then
    ⟨false, some .cannotInitParser, [.context], []⟩
  else if env.frameAllocOk = false then
    ⟨false, some .cannotAllocateFrame, [.context, .parserCtx], []⟩
  else if env.pktAllocOk = false then
    ⟨false, some .cannotAllocatePacket, [.context, .parserCtx, .frameRes], []⟩
  else if cpr ≠ compH264 ∧ cpr ≠ compH265 then
    ⟨false, some .unsupportedCompression,
      [.context, .parserCtx, .frameRes, .pktRes], []⟩
  else if pxlFmt ≠ PixelFormatRGB ∧ pxlFmt ≠ PixelFormatBGR then
    ⟨false, some .unsupportedPixelFormat,
      [.context, .parserCtx, .frameRes, .pktRes], []⟩
  else if env.convFrameOk = false then
    ⟨false, some .cannotAllocateFrame,
      [.context, .parserCtx, .frameRes, .pktRes], []⟩
  else ⟨true, none,
    [.context, .parserCtx, .frameRes, .pktRes, .converterFrame], []⟩

/-! ### Frame geometry (`newFrame`/`frameData`, decoder.go 202-218) for C5 -/

/-- The fields of an `avutil.Frame` read by `newFrame` and `frameData`:
width, height, `linesize[0]`, and the bytes of the first data plane
(`data[0]`), modelled as byte memory indexed from the plane's base. -/
structure AVFrame where
  width : Int
  height : Int
  linesize0 : Int
  mem : Nat → Nat

/-- Function `frameData` (decoder.go 213-218): `size := linesize[0] * height`;
`C.GoBytes(data[0], size)` copies exactly `size` bytes into a fresh slice. -/
def frameData (f : AVFrame) : List Nat :=
  (List.range (f.linesize0 * f.height).toNat).map f.mem

/-- Function `newFrame` (decoder.go 202-211): wrap the converted picture's
bytes and geometry, with `Stride = linesize[0]`. -/
def newFrame (f : AVFrame) : Frame :=
  ⟨frameData f, f.width, f.height, f.linesize0⟩

/-- Modelled from the spec: the row size of the packed 24-bit RGB/BGR
picture produced by the external conversion calls (`AvSetFrame`,
`AvpictureFill`, `SwsScale2` — all in the native library, outside this
repository).  Spec §3: "`stride >= width * 3` for 24-bit RGB/BGR targets";
for the packed formats `AV_PIX_FMT_RGB24`/`BGR24` the library fills
`linesize[0]` with exactly `3 * width` bytes per row. -/
def rgbLinesize (w : Int) : Int := 3 * w

/-- The converted picture handed to `newFrame` by `decodeFrameImpl`: the
geometry the converter was driven with, and the bytes `SwsScale2` wrote. -/
def convertedPicture (w h : Int) (mem : Nat → Nat) : AVFrame :=
  ⟨w, h, rgbLinesize w, mem⟩

/-! ### `converter.Convert` (decoder.go 244-298) for C7 -/

/-- Outcomes of the external calls inside `converter.Convert`: whether the
scaling-context construction (`SwsGetcontext`/`SwsGetcachedcontext`)
returns a non-nil context, and whether `avutil.AvSetFrame` succeeds. -/
structure ConvertEnv where
  swsCtxOk : Bool
  setFrameOk : Bool
deriving DecidableEq

/-- The error returns of `converter.Convert`. -/
inductive ConvErr where
  | cannotAllocateContext
  | setFrameFailed
deriving DecidableEq

/-- Observable outcome of a `converter.Convert` call.
* `ok` — the return `(c.framergb, nil)`: a converted frame, no error.
* `err` — an error return, no frame.
* `panicNilDeref` — `context.Width()` dereferenced a nil codec context at
  entry.
* `crashNilSws` — `SwsScale2` was invoked with a nil scaling context. -/
inductive ConvOut where
  | ok
  | err (e : ConvErr)
  | panicNilDeref
  | crashNilSws
deriving DecidableEq

/-- Function `converter.Convert` (decoder.go 244-298).  In source order: read
`context.Width()/Height()/PixFmt()` (dereferencing `context`); build or
rebuild `swsCtx` (nil exactly when `env.swsCtxOk = false`); then the check
`if context == nil` — note it tests the input codec context, which was
already dereferenced at entry, not the just-built `swsCtx`; then
`AvSetFrame` (error returned); then `AvpictureFill` and `SwsScale2` with
`swsCtx`; finally return `(c.framergb, nil)`. -/
def Convert (env : ConvertEnv) (contextNil : Bool) : ConvOut :=
  if contextNil = true then .panicNilDeref
  else if contextNil = true then .err .cannotAllocateContext
  else if env.setFrameOk = false then .err .setFrameFailed
  else if env.swsCtxOk = false then .crashNilSws
  else .ok

/-! ### Buffer ownership (C9)

Frames returned by `Decode` own their pixel bytes: `frameData` calls
`C.GoBytes`, which allocates a fresh Go slice and copies the scratch
picture's bytes into it.  We model the byte buffers explicitly as a store
of buffers addressed by index; the decoder-internal scratch picture is one
fixed address, each `C.GoBytes` is an allocation at a fresh address. -/

/-- A heap of byte buffers; an address is an index into the list. -/
structure Store where
  bufs : List (List Nat)
deriving DecidableEq

/-- Overwrite the buffer at address `a` (no-op when `a` is unallocated). -/
def writeBuf (st : Store) (a : Nat) (content : List Nat) : Store :=
  ⟨st.bufs.set a content⟩

/-- Read the buffer at address `a`. -/
def readBuf (st : Store) (a : Nat) : List Nat :=
  (st.bufs[a]?).getD []

/-- Allocate a fresh buffer holding `content`; its address is the previous
heap size. -/
def allocBuf (st : Store) (content : List Nat) : Store × Nat :=
  (⟨st.bufs ++ [content]⟩, st.bufs.length)

/-- One successful frame production at the store level: the engine and
converter write the decoded picture `pic` into the decoder-owned scratch
buffer, then `frameData`'s `C.GoBytes` copies that buffer into a freshly
allocated one, whose address the returned `Frame` owns. -/
def emitFrame (st : Store) (scratch : Nat) (pic : List Nat) : Store × Nat :=
  let st1 := writeBuf st scratch pic
  allocBuf st1 (readBuf st1 scratch)

/-- The frame productions of one or more `Decode` calls on the same decoder:
each decoded picture passes through the same scratch buffer and is copied
out; the returned addresses are the `Data` buffers of the returned frames,
in order. -/
def emitFrames (st : Store) (scratch : Nat) : List (List Nat) → Store × List Nat
  | [] => (st, [])
  | p :: ps =>
    let r := emitFrame st scratch p
    let r2 := emitFrames r.1 scratch ps
    (r2.1, r.2 :: r2.2)

/-- When `decodeFrameImpl` reports an error, the frame it returns is `nil`:
both error returns (decode failure and conversion failure) carry no frame. -/
theorem decodeFrameImpl_err_no_frame (E : Engine σ) (s : σ) (data : List Nat)
    (e : DecodeErr)
    (h : (decodeFrameImpl E s data).2.2.2.2 = some e) :
    (decodeFrameImpl E s data).2.1 = none := by
  rcases hp : E.parse s data with ⟨s1, nread, avail⟩
  cases avail with
  | false => simp [decodeFrameImpl, hp] at h
  | true =>
    rcases hd : E.decodeFrame s1 with ⟨s2, b⟩
    cases b with
    | false => simp [decodeFrameImpl, hp, hd]
    | true =>
      rcases hc : E.convert s2 with ⟨s3, fo⟩
      cases fo with
      | none => simp [decodeFrameImpl, hp, hd, hc]
      | some f => simp [decodeFrameImpl, hp, hd, hc] at h

/-- Scan loop invariant used for C6: if every parse call on a nonempty
remainder consumes between one byte and the whole remainder and never
reports a pending packet, the loop ends with exactly the frames it started
with and no error, within `data.length` iterations. -/
theorem decodeLoop_no_unit (E : Engine σ)
    (hprog : ∀ (s : σ) (d : List Nat), d ≠ [] →
      1 ≤ (E.parse s d).2.1 ∧ (E.parse s d).2.1 ≤ (d.length : Int))
    (hnoavail : ∀ (s : σ) (d : List Nat), (E.parse s d).2.2 = false) :
    ∀ (fuel : Nat) (data : List Nat) (s : σ) (acc : List Frame),
      data.length ≤ fuel → (decodeLoop E fuel s data acc).2 = .ok acc := by
  intro fuel
  induction fuel with
  | zero =>
    intro data s acc hlen
    have : data = [] := List.eq_nil_of_length_eq_zero (Nat.le_zero.mp hlen)
    subst this
    rfl
  | succ n ih =>
    intro data s acc hlen
    by_cases hd : data = []
    · subst hd; rfl
    · rcases hp : E.parse s data with ⟨s1, nr, avail⟩
      have hav : avail = false := by
        have := hnoavail s data
        rw [hp] at this
        exact this
      subst hav
      have himpl : decodeFrameImpl E s data = (s1, none, nr, false, none) := by
        simp [decodeFrameImpl, hp]
      have hpr : 1 ≤ nr ∧ nr ≤ (data.length : Int) := by
        simpa [hp] using hprog s data hd
      have h1 : ¬ nr < 0 := by omega
      have h2 : ¬ ((data.length : Int) < nr) := by omega
      have hlt : (data.drop nr.toNat).length ≤ n := by
        have h3 : 1 ≤ nr.toNat := by omega
        have h4 : 1 ≤ data.length := by
          cases data with
          | nil => exact absurd rfl hd
          | cons a l => simp
        simp only [List.length_drop]
        omega
      calc (decodeLoop E (n + 1) s data acc).2
          = (decodeLoop E n s1 (data.drop nr.toNat) acc).2 := by
            simp [decodeLoop, hd, himpl, h1, h2]
        _ = .ok acc := ih _ s1 acc hlt

/-- On an empty remainder the loop ends at once with its accumulator. -/
theorem decodeLoop_nil (E : Engine σ) (fuel : Nat) (s : σ) (acc : List Frame) :
    decodeLoop E fuel s [] acc = (s, .ok acc) := by
  cases fuel <;> rfl

/-- A parse call never consumes more than the remainder. -/
theorem parseBytes_le (E : StreamEngine σ) :
    ∀ (d : List Nat) (s : σ), (parseBytes E s d).2.1 ≤ d.length := by
  intro d
  induction d with
  | nil => intro s; simp [parseBytes]
  | cons b rest ih =>
    intro s
    rcases hf : E.feed s b with ⟨s1, done⟩
    cases done with
    | false =>
      have := ih s1
      simp only [parseBytes, hf, List.length_cons]
      omega
    | true => simp [parseBytes, hf]

/-- A parse call on a nonempty remainder consumes at least one byte. -/
theorem parseBytes_pos (E : StreamEngine σ) (d : List Nat) (s : σ)
    (hd : d ≠ []) : 1 ≤ (parseBytes E s d).2.1 := by
  cases d with
  | nil => exact absurd rfl hd
  | cons b rest =>
    rcases hf : E.feed s b with ⟨s1, done⟩
    cases done with
    | false => simp [parseBytes, hf]
    | true => simp [parseBytes, hf]

/-- A parse call that reports no pending packet consumed the whole
remainder (the stream engine buffered every byte without finding a
boundary). -/
theorem parseBytes_noavail (E : StreamEngine σ) :
    ∀ (d : List Nat) (s : σ), (parseBytes E s d).2.2 = false →
      (parseBytes E s d).2.1 = d.length := by
  intro d
  induction d with
  | nil => intro s _; simp [parseBytes]
  | cons b rest ih =>
    intro s h
    rcases hf : E.feed s b with ⟨s1, done⟩
    cases done with
    | false =>
      simp only [parseBytes, hf] at h ⊢
      have := ih s1 h
      simp only [List.length_cons]
      omega
    | true => simp [parseBytes, hf] at h

/-- Unfolding of the byte-level run along one parse call: the run up to the
first boundary, the unit processed there, and the run of the rest. -/
theorem runBytes_split (E : StreamEngine σ) :
    ∀ (d : List Nat) (s : σ),
      runBytes E s d =
        (if (parseBytes E s d).2.2 = true then
          ((runBytes E (unitStep E (parseBytes E s d).1).1
              (d.drop (parseBytes E s d).2.1)).1,
            (unitStep E (parseBytes E s d).1).2 ++
              (runBytes E (unitStep E (parseBytes E s d).1).1
                (d.drop (parseBytes E s d).2.1)).2)
        else ((parseBytes E s d).1, [])) := by
  intro d
  induction d with
  | nil => intro s; simp [runBytes, parseBytes]
  | cons b rest ih =>
    intro s
    rcases hf : E.feed s b with ⟨s1, done⟩
    cases done with
    | true => simp [runBytes, parseBytes, hf]
    | false =>
      have := ih s1
      simp only [runBytes, parseBytes, hf, List.drop_succ_cons]
      exact this

/-- The byte-level run of a concatenation is the run of the first part
followed by the run of the second from the reached state. -/
theorem runBytes_append (E : StreamEngine σ) :
    ∀ (l1 l2 : List Nat) (s : σ),
      runBytes E s (l1 ++ l2) =
        ((runBytes E (runBytes E s l1).1 l2).1,
          (runBytes E s l1).2 ++ (runBytes E (runBytes E s l1).1 l2).2) := by
  intro l1
  induction l1 with
  | nil => intro l2 s; simp [runBytes]
  | cons b rest ih =>
    intro l2 s
    rcases hf : E.feed s b with ⟨s1, done⟩
    cases done with
    | false => simp [runBytes, hf, ih]
    | true => simp [runBytes, hf, ih, List.append_assoc]

/-- Linearisation: over a byte-stream engine, the decoder's scan loop with
enough fuel computes exactly the byte-level run — chunk boundaries are
invisible. -/
theorem decodeLoop_linearize (E : StreamEngine σ) :
    ∀ (fuel : Nat) (d : List Nat) (s : σ) (acc : List Frame),
      d.length ≤ fuel →
      decodeLoop (toEngine E) fuel s d acc =
        ((runBytes E s d).1, .ok (acc ++ (runBytes E s d).2)) := by
  intro fuel
  induction fuel with
  | zero =>
    intro d s acc hlen
    have hd : d = [] := List.eq_nil_of_length_eq_zero (Nat.le_zero.mp hlen)
    subst hd
    simp [decodeLoop, runBytes]
  | succ n ih =>
    intro d s acc hlen
    by_cases hd : d = []
    · subst hd; simp [decodeLoop_nil, runBytes]
    · rcases hp : parseBytes E s d with ⟨s1, nn, avail⟩
      have hle : nn ≤ d.length := by
        have := parseBytes_le E d s
        rw [hp] at this
        exact this
      have hpos : 1 ≤ nn := by
        have := parseBytes_pos E d s hd
        rw [hp] at this
        exact this
      have hlpos : 1 ≤ d.length := by
        cases d with
        | nil => exact absurd rfl hd
        | cons a l => simp
      have hdroplen : (d.drop nn).length ≤ n := by
        simp only [List.length_drop]
        omega
      have h1 : ¬ ((nn : Int) < 0) := by omega
      have h2 : ¬ ((d.length : Int) < (nn : Int)) := by omega
      have hrbs := runBytes_split E d s
      rw [hp] at hrbs
      cases avail with
      | false =>
        have hnl : nn = d.length := by
          have := parseBytes_noavail E d s
          rw [hp] at this
          exact this rfl
        have himpl : decodeFrameImpl (toEngine E) s d =
            (s1, none, (nn : Int), false, none) := by
          simp [decodeFrameImpl, toEngine, hp]
        have hrb : runBytes E s d = (s1, []) := by simpa using hrbs
        rw [hrb]
        simp only [decodeLoop, if_neg hd, himpl, h1, if_false, h2,
          Int.toNat_natCast, Bool.false_and, if_neg, Option.isSome_none]
        rw [hnl, List.drop_length, decodeLoop_nil]
        simp
      | true =>
        rcases hds : E.decodeFrame s1 with ⟨s2, ok2⟩
        cases ok2 with
        | false =>
          have himpl : decodeFrameImpl (toEngine E) s d =
              (s2, none, (nn : Int), true, some .decodeErr) := by
            simp [decodeFrameImpl, toEngine, hp, hds]
          have hu : unitStep E s1 = (s2, []) := by simp [unitStep, hds]
          rw [hu] at hrbs
          simp only [if_true] at hrbs
          rw [hrbs]
          simp only [decodeLoop, if_neg hd, himpl, h1, h2, if_false,
            Int.toNat_natCast, Option.isSome_none, Bool.and_false]
          rw [if_neg (by simp), ih (d.drop nn) s2 acc hdroplen]
          simp
        | true =>
          rcases hc : E.convert s2 with ⟨s3, fo⟩
          cases fo with
          | none =>
            have himpl : decodeFrameImpl (toEngine E) s d =
                (s3, none, (nn : Int), true, some .convertErr) := by
              simp [decodeFrameImpl, toEngine, hp, hds, hc]
            have hu : unitStep E s1 = (s3, []) := by simp [unitStep, hds, hc]
            rw [hu] at hrbs
            simp only [if_true] at hrbs
            rw [hrbs]
            simp only [decodeLoop, if_neg hd, himpl, h1, h2, if_false,
              Int.toNat_natCast, Option.isSome_none, Bool.and_false]
            rw [if_neg (by simp), ih (d.drop nn) s3 acc hdroplen]
            simp
          | some f =>
            have himpl : decodeFrameImpl (toEngine E) s d =
                (s3, some f, (nn : Int), true, none) := by
              simp [decodeFrameImpl, toEngine, hp, hds, hc]
            have hu : unitStep E s1 = (s3, [f]) := by simp [unitStep, hds, hc]
            rw [hu] at hrbs
            simp only [if_true] at hrbs
            rw [hrbs]
            simp only [decodeLoop, if_neg hd, himpl, h1, h2, if_false,
              Int.toNat_natCast, Option.isSome_some, Bool.and_true]
            simp only [if_true]
            rw [ih (d.drop nn) s3 (acc ++ (some f).toList) hdroplen]
            simp

/-- Chunked decoding computes the byte-level run of the concatenation. -/
theorem decodeChunks_eq_runBytes (E : StreamEngine σ) :
    ∀ (chunks : List (List Nat)) (s : σ),
      decodeChunks E s chunks = runBytes E s chunks.flatten := by
  intro chunks
  induction chunks with
  | nil => intro s; simp [decodeChunks, runBytes]
  | cons c cs ih =>
    intro s
    have hdec : Decode (toEngine E) c.length s c =
        ((runBytes E s c).1, .ok (runBytes E s c).2) := by
      have := decodeLoop_linearize E c.length c s [] le_rfl
      simpa [Decode] using this
    simp [decodeChunks, hdec, ih, runBytes_append]

/-- Writing one buffer leaves every other address unchanged. -/
theorem readBuf_writeBuf_ne (st : Store) (a b : Nat) (x : List Nat)
    (h : a ≠ b) : readBuf (writeBuf st a x) b = readBuf st b := by
  simp [readBuf, writeBuf, List.getElem?_set_ne h]

/-- Writing an allocated buffer makes its content the written bytes. -/
theorem readBuf_writeBuf_self (st : Store) (a : Nat) (x : List Nat)
    (h : a < st.bufs.length) : readBuf (writeBuf st a x) a = x := by
  simp [readBuf, writeBuf, List.getElem?_set_eq_of_lt x h]

/-- A frame emission grows the heap by exactly one buffer. -/
theorem emitFrame_length (st : Store) (scratch : Nat) (p : List Nat) :
    (emitFrame st scratch p).1.bufs.length = st.bufs.length + 1 := by
  simp [emitFrame, allocBuf, writeBuf]

/-- The address a frame emission returns is the previous heap size. -/
theorem emitFrame_addr (st : Store) (scratch : Nat) (p : List Nat) :
    (emitFrame st scratch p).2 = st.bufs.length := by
  simp [emitFrame, allocBuf, writeBuf]

/-- A frame emission does not disturb any allocated buffer other than the
scratch one. -/
theorem emitFrame_preserves (st : Store) (scratch : Nat) (p : List Nat)
    (a : Nat) (ha : a ≠ scratch) (hlt : a < st.bufs.length) :
    readBuf (emitFrame st scratch p).1 a = readBuf st a := by
  have h1 : a < (writeBuf st scratch p).bufs.length := by
    simpa [writeBuf] using hlt
  calc readBuf (emitFrame st scratch p).1 a
      = readBuf (writeBuf st scratch p) a := by
        simp [emitFrame, allocBuf, readBuf, List.getElem?_append_left h1]
    _ = readBuf st a := readBuf_writeBuf_ne st scratch a p (fun he => ha he.symm)

/-- The freshly allocated buffer of a frame emission holds a copy of the
picture that was written into the scratch buffer. -/
theorem emitFrame_content (st : Store) (scratch : Nat) (p : List Nat)
    (h : scratch < st.bufs.length) :
    readBuf (emitFrame st scratch p).1 st.bufs.length = p := by
  have hlen : (writeBuf st scratch p).bufs.length = st.bufs.length := by
    simp [writeBuf]
  have hread : (writeBuf st scratch p).bufs[scratch]?.getD [] = p := by
    simpa [readBuf] using readBuf_writeBuf_self st scratch p h
  simp only [emitFrame, allocBuf, readBuf]
  rw [hread, ← hlen, List.getElem?_concat_length]
  rfl

/-- Emitting frames grows the heap by one buffer per picture. -/
theorem emitFrames_length (scratch : Nat) :
    ∀ (pics : List (List Nat)) (st : Store),
      (emitFrames st scratch pics).1.bufs.length =
        st.bufs.length + pics.length := by
  intro pics
  induction pics with
  | nil => intro st; simp [emitFrames]
  | cons p ps ih =>
    intro st
    simp only [emitFrames, List.length_cons]
    rw [ih, emitFrame_length]
    omega

/-- Emitting frames does not disturb any allocated non-scratch buffer. -/
theorem emitFrames_preserves (scratch : Nat) :
    ∀ (pics : List (List Nat)) (st : Store) (a : Nat),
      a ≠ scratch → a < st.bufs.length →
      readBuf (emitFrames st scratch pics).1 a = readBuf st a := by
  intro pics
  induction pics with
  | nil => intro st a _ _; rfl
  | cons p ps ih =>
    intro st a ha hlt
    have hlt2 : a < (emitFrame st scratch p).1.bufs.length := by
      rw [emitFrame_length]; omega
    simp only [emitFrames]
    rw [ih (emitFrame st scratch p).1 a ha hlt2,
      emitFrame_preserves st scratch p a ha hlt]

/-- Full freshness/stability invariant of frame emission: one address per
picture; addresses strictly increasing (hence pairwise distinct); every
address strictly above the scratch address and fresh (at or above the
initial heap size, below the final one); and, in the final heap, each
address still holds its own picture, untouched by the later emissions that
reused the scratch buffer. -/
theorem emitFrames_spec (scratch : Nat) :
    ∀ (pics : List (List Nat)) (st : Store), scratch < st.bufs.length →
      (emitFrames st scratch pics).2.length = pics.length ∧
      ((emitFrames st scratch pics).2).Pairwise (· < ·) ∧
      (∀ a ∈ (emitFrames st scratch pics).2,
        scratch < a ∧ st.bufs.length ≤ a ∧
          a < (emitFrames st scratch pics).1.bufs.length) ∧
      (∀ ap ∈ (emitFrames st scratch pics).2.zip pics,
        readBuf (emitFrames st scratch pics).1 ap.1 = ap.2) := by
  intro pics
  induction pics with
  | nil =>
    intro st _
    refine ⟨rfl, List.Pairwise.nil, ?_, ?_⟩ <;> intro a h <;> simp [emitFrames] at h
  | cons p ps ih =>
    intro st hscr
    have hlen2 : (emitFrame st scratch p).1.bufs.length = st.bufs.length + 1 :=
      emitFrame_length st scratch p
    have hscr2 : scratch < (emitFrame st scratch p).1.bufs.length := by omega
    obtain ⟨ihlen, ihpw, ihmem, ihcontent⟩ := ih (emitFrame st scratch p).1 hscr2
    have haddr : (emitFrame st scratch p).2 = st.bufs.length :=
      emitFrame_addr st scratch p
    have hfinal : (emitFrames (emitFrame st scratch p).1 scratch ps).1.bufs.length =
        st.bufs.length + 1 + ps.length := by
      rw [emitFrames_length, hlen2]
    constructor
    · simp only [emitFrames, List.length_cons, ihlen]
    constructor
    · simp only [emitFrames]
      refine List.Pairwise.cons ?_ ihpw
      intro b hb
      have := (ihmem b hb).2.1
      omega
    constructor
    · simp only [emitFrames]
      intro a hmem
      rcases List.mem_cons.mp hmem with h | h
      · subst h
        refine ⟨by omega, by omega, ?_⟩
        rw [hfinal, haddr]
        omega
      · obtain ⟨h1, h2, h3⟩ := ihmem a h
        exact ⟨h1, by omega, h3⟩
    · simp only [emitFrames]
      intro ap hmem
      rw [haddr, List.zip_cons_cons] at hmem
      rcases List.mem_cons.mp hmem with h | h
      · subst h
        have hne : st.bufs.length ≠ scratch := by omega
        have hlt : st.bufs.length < (emitFrame st scratch p).1.bufs.length := by
          omega
        rw [emitFrames_preserves scratch ps (emitFrame st scratch p).1
          st.bufs.length hne hlt]
        exact emitFrame_content st scratch p hscr
      · exact ihcontent ap h

/-- No path of `New` releases anything: the Go code has no free call on any
failure (or success) path of the constructor. -/
theorem new_freed_empty (env : NewEnv) (pxlFmt cpr : Int) :
    (New env pxlFmt cpr).freed = [] := by
  unfold New
  split_ifs <;> rfl

/-- On every path of `New` that produces an error, no decoder is returned. -/
theorem new_err_no_decoder (env : NewEnv) (pxlFmt cpr : Int) :
    (New env pxlFmt cpr).err.isSome = true → (New env pxlFmt cpr).dec = false := by
  unfold New
  split_ifs <;> intro h <;> first | rfl | exact absurd h (by decide)

/-! ### Claim theorems -/

/-- Claim C1, counterexample: on a concrete engine and chunk, the first scan
iteration assembles a frame, the second hits a decode failure with negative
parser progress, and `Decode` returns the `fatal` outcome carrying the
empty (Go `nil`) frame list — not the frames assembled during that same
call, contradicting the claim. -/
theorem decode_fatal_drops_assembled_frame :
    Decode fatalAfterFrameEngine 2 0 [9, 9] = (2, .fatal [] .decodeErr) ∧
    (decodeFrameImpl fatalAfterFrameEngine 0 [9, 9]).2.1 =
      some ⟨[7], 1, 1, 3⟩ ∧
    DecodeOut.fatal [] .decodeErr ≠
      DecodeOut.fatal [⟨[7], 1, 1, 3⟩] .decodeErr := by decide

/-- Claim C1, amended: when a decode step fails and the parser reported
negative progress, `Decode` aborts the scan immediately at that iteration
and returns the error together with a `nil` (empty) frame list — frames
already assembled in the same call (the accumulator) are discarded. -/
theorem decode_fatal_aborts_with_nil_list (E : Engine σ) (fuel : Nat)
    (s s' : σ) (data : List Nat) (acc : List Frame) (fr : Option Frame)
    (nread : Int) (avail : Bool) (e : DecodeErr)
    (hne : data ≠ [])
    (h : decodeFrameImpl E s data = (s', fr, nread, avail, some e))
    (hneg : nread < 0) :
    decodeLoop E (fuel + 1) s data acc = (s', .fatal [] e) := by
  simp [decodeLoop, hne, h, hneg]

/-- Claim C1, witness for the amended theorem: concrete abort with one frame
already accumulated, returning the nil list plus the error. -/
theorem decode_fatal_aborts_with_nil_list_witness :
    decodeLoop fatalAfterFrameEngine 1 1 [9] [⟨[7], 1, 1, 3⟩] =
      (2, .fatal [] .decodeErr) :=
  decode_fatal_aborts_with_nil_list fatalAfterFrameEngine 0 1 2 [9]
    [⟨[7], 1, 1, 3⟩] none (-1) true .decodeErr (by decide) (by decide)
    (by decide)

/-- Claim C2, counterexample: a unit decode failure with non-negative parser
progress (here `nread = 1` on a 1-byte chunk) is not reported: the same
`Decode` call returns the `ok` outcome, i.e. `(frames, nil)` with a nil
error, contradicting the claim that the failure appears as an error value
in the return. -/
theorem decode_unit_failure_error_not_returned :
    Decode unitFailureEngine 1 0 [9] = (1, .ok []) ∧
    decodeFrameImpl unitFailureEngine 0 [9] =
      (1, none, 1, true, some .decodeErr) := by decide

/-- Claim C2, amended: a unit decode failure whose parser progress is
non-negative is silently discarded — the scan continues from the advanced
cursor with the accumulator unchanged, exactly as if the unit had produced
no frame, and the failure does not reach the caller through this
iteration. -/
theorem decode_unit_failure_swallowed (E : Engine σ) (fuel : Nat)
    (s s' : σ) (data : List Nat) (acc : List Frame) (fr : Option Frame)
    (nread : Int) (avail : Bool) (e : DecodeErr)
    (hne : data ≠ [])
    (h : decodeFrameImpl E s data = (s', fr, nread, avail, some e))
    (h0 : 0 ≤ nread) (hle : nread ≤ (data.length : Int)) :
    decodeLoop E (fuel + 1) s data acc =
      decodeLoop E fuel s' (data.drop nread.toNat) acc := by
  have hfr : fr = none := by
    have h2 : (decodeFrameImpl E s data).2.2.2.2 = some e := by rw [h]
    have h3 := decodeFrameImpl_err_no_frame E s data e h2
    rw [h] at h3
    exact h3
  subst hfr
  simp [decodeLoop, hne, h, not_lt.mpr h0, not_lt.mpr hle]

/-- Claim C2, witness for the amended theorem: the failing iteration on a
concrete engine reduces to the continuation of the scan. -/
theorem decode_unit_failure_swallowed_witness :
    decodeLoop unitFailureEngine 1 0 [9] [] =
      decodeLoop unitFailureEngine 0 1 ([9].drop (1 : Int).toNat) [] :=
  decode_unit_failure_swallowed unitFailureEngine 0 0 1 [9] [] none 1 true
    .decodeErr (by decide) (by decide) (by decide) (by decide)

/-- Claim C3: for a chunk-oblivious (byte-stream deterministic) engine —
the external parser buffers undigested bytes across calls, so chunk
boundaries are invisible to it — decoding a fixed complete bitstream with
one `Decode` call on a fresh decoder state equals decoding any partition
of it into consecutive chunks fed to successive `Decode` calls,
concatenating each call's output in order: same final state, same ordered
frame list (hence equal width, height, stride and pixel data per frame). -/
theorem decode_chunk_invariant (E : StreamEngine σ) (s : σ)
    (chunks : List (List Nat)) :
    Decode (toEngine E) chunks.flatten.length s chunks.flatten =
      ((decodeChunks E s chunks).1, .ok (decodeChunks E s chunks).2) := by
  rw [decodeChunks_eq_runBytes]
  have h := decodeLoop_linearize E chunks.flatten.length chunks.flatten s []
    le_rfl
  simpa [Decode] using h

/-- Claim C4, counterexample: when `AvcodecOpen2` fails, `New` returns the
error while the codec context allocated earlier in the same call is still
held (nothing was released), contradicting the claim that every earlier
resource is released before the error return. -/
theorem new_open_failure_leaks_context :
    New ⟨true, true, false, true, true, true, true⟩ PixelFormatRGB compH264 =
      ⟨false, some .cannotOpenContent, [.context], []⟩ ∧
    [Resource.context] ≠ ([] : List Resource) := by decide

/-- Claim C4, amended: on every failure path of `New` no partially
constructed decoder is returned, but no resource allocated earlier in the
call is released either — the free list is empty on every path, so earlier
allocations leak. -/
theorem new_failure_returns_no_decoder_frees_nothing (env : NewEnv)
    (pxlFmt cpr : Int) (h : (New env pxlFmt cpr).err.isSome = true) :
    (New env pxlFmt cpr).dec = false ∧ (New env pxlFmt cpr).freed = [] :=
  ⟨new_err_no_decoder env pxlFmt cpr h, new_freed_empty env pxlFmt cpr⟩

/-- Claim C4, witness for the amended theorem: parser-init failure returns
no decoder and frees nothing. -/
theorem new_failure_returns_no_decoder_frees_nothing_witness :
    (New ⟨true, true, true, false, true, true, true⟩ PixelFormatBGR
      compH265).dec = false ∧
    (New ⟨true, true, true, false, true, true, true⟩ PixelFormatBGR
      compH265).freed = [] :=
  new_failure_returns_no_decoder_frees_nothing _ _ _ (by decide)

/-- Claim C5: a frame assembled by `newFrame` from the converted 24-bit
RGB/BGR picture satisfies `Data.length = Stride * Height` (by `frameData`,
which copies exactly `linesize[0] * height` bytes) and
`Stride ≥ Width * 3` (the packed 24-bit row size), for the non-negative
geometries the engine reports. -/
theorem frame_invariant_data_length_and_stride (w h : Int) (mem : Nat → Nat)
    (hw : 0 ≤ w) (hh : 0 ≤ h) :
    ((newFrame (convertedPicture w h mem)).Data.length : Int) =
        (newFrame (convertedPicture w h mem)).Stride *
          (newFrame (convertedPicture w h mem)).Height ∧
    (newFrame (convertedPicture w h mem)).Width * 3 ≤
      (newFrame (convertedPicture w h mem)).Stride := by
  constructor
  · have h0 : 0 ≤ rgbLinesize w * h := by
      have h3 : (0 : Int) ≤ 3 * w := by linarith
      simpa [rgbLinesize] using mul_nonneg h3 hh
    simp only [newFrame, frameData, convertedPicture, List.length_map,
      List.length_range]
    rw [Int.toNat_of_nonneg h0]
  · simp only [newFrame, convertedPicture, rgbLinesize]
    linarith

/-- Claim C5, witness: the invariant at width 2, height 3. -/
theorem frame_invariant_data_length_and_stride_witness :
    ((newFrame (convertedPicture 2 3 (fun n => n))).Data.length : Int) =
        (newFrame (convertedPicture 2 3 (fun n => n))).Stride *
          (newFrame (convertedPicture 2 3 (fun n => n))).Height ∧
    (newFrame (convertedPicture 2 3 (fun n => n))).Width * 3 ≤
      (newFrame (convertedPicture 2 3 (fun n => n))).Stride :=
  frame_invariant_data_length_and_stride 2 3 (fun n => n) (by norm_num)
    (by norm_num)

/-- Claim C6, counterexample: against an engine that consumes zero bytes
and reports no pending packet, the scan loop of `Decode` never terminates
— it re-parses the same unshortened remainder forever instead of stopping
the scan and returning an empty list, contradicting the claim that such a
call stops scanning and is a bounded, terminating computation. -/
theorem decode_zero_progress_never_terminates :
    DecodeDiverges zeroProgressEngine 0 [9] := by
  intro fuel
  induction fuel with
  | zero => decide
  | succ n ih =>
    have hstep : Decode zeroProgressEngine (n + 1) 0 [9] =
        Decode zeroProgressEngine n 0 [9] := by
      simp [Decode, decodeLoop, decodeFrameImpl, zeroProgressEngine]
    rw [hstep]
    exact ih

/-- Claim C6, amended: when every parse call on a nonempty remainder
consumes at least one byte (and at most the remainder) and never reports a
complete unit — the behaviour of the real parser on a chunk with no unit
boundary, which buffers all bytes — `Decode` terminates within
`data.length` iterations and returns an empty frame list with no error.
The zero-bytes-consumed, no-progress outcome, by contrast, makes the loop
spin forever (see the counterexample): the code has no stop-scan for it. -/
theorem decode_no_boundary_returns_empty (E : Engine σ) (s : σ)
    (data : List Nat) (fuel : Nat)
    (hprog : ∀ (t : σ) (d : List Nat), d ≠ [] →
      1 ≤ (E.parse t d).2.1 ∧ (E.parse t d).2.1 ≤ (d.length : Int))
    (hnoavail : ∀ (t : σ) (d : List Nat), (E.parse t d).2.2 = false)
    (hfuel : data.length ≤ fuel) :
    (Decode E fuel s data).2 = .ok [] :=
  decodeLoop_no_unit E hprog hnoavail fuel data s [] hfuel

/-- Claim C6, witness for the amended theorem: a three-byte chunk with no
unit boundary yields the empty list and no error. -/
theorem decode_no_boundary_returns_empty_witness :
    (Decode consumeAllEngine 3 0 [1, 2, 3]).2 = .ok [] :=
  decode_no_boundary_returns_empty consumeAllEngine 0 [1, 2, 3] 3
    (fun t d hd => by
      show 1 ≤ (d.length : Int) ∧ (d.length : Int) ≤ (d.length : Int)
      refine ⟨?_, le_refl _⟩
      have h1 : 0 < d.length := List.length_pos.mpr hd
      exact_mod_cast h1)
    (fun t d => rfl) (by decide)

/-- Claim C7 (code bug): when the scaling context cannot be built
(`SwsGetcontext` returns nil, `swsCtxOk = false`) while `AvSetFrame`
succeeds, `Convert` reports no error at all — the nil check at decoder.go
line 278 tests the input codec context (already dereferenced at entry, so
necessarily non-nil there) instead of the just-built `swsCtx`, and the
call reaches `SwsScale2` with a nil scaling context.  The `AvSetFrame`
failure (the non-positive-geometry path) is, by contrast, returned as an
error. -/
theorem convert_nil_sws_context_not_reported :
    Convert ⟨false, true⟩ false = ConvOut.crashNilSws ∧
    Convert ⟨false, true⟩ false ≠ ConvOut.err .cannotAllocateContext ∧
    Convert ⟨false, true⟩ false ≠ ConvOut.err .setFrameFailed ∧
    Convert ⟨false, false⟩ false = ConvOut.err .setFrameFailed := by decide

/-- Claim C8, counterexample: the compression validation sits after the
decoder lookup, so for a compression value outside `{H264, H265}` whose
codec id has no registered decoder, `New` fails with the
cannot-find-decoder error — not `unsupportedCompression` — contradicting
the claim that every out-of-set compression fails with the
`UnsupportedCompression` error. -/
theorem new_unknown_codec_cannot_find_decoder :
    New ⟨false, true, true, true, true, true, true⟩ PixelFormatRGB 12 =
      ⟨false, some .cannotFindDecoder, [], []⟩ ∧
    (12 : Int) ≠ compH264 ∧ (12 : Int) ≠ compH265 ∧
    NewErr.cannotFindDecoder ≠ NewErr.unsupportedCompression := by decide

/-- Claim C8, amended: when the earlier engine steps all succeed (decoder
found, context allocated and opened, parser initialised, frame and packet
allocated), a compression outside `{H264, H265}` makes `New` fail with the
`unsupportedCompression` error and return no decoder; when an earlier step
fails, that step's own error is returned instead. -/
theorem new_unsupported_compression_after_engine_setup (env : NewEnv)
    (pxlFmt cpr : Int) (hf : env.findOk = true) (ha : env.allocCtxOk = true)
    (ho : env.openOk = true) (hpi : env.parserInitOk = true)
    (hfr : env.frameAllocOk = true) (hpk : env.pktAllocOk = true)
    (h1 : cpr ≠ compH264) (h2 : cpr ≠ compH265) :
    (New env pxlFmt cpr).err = some .unsupportedCompression ∧
    (New env pxlFmt cpr).dec = false := by
  simp [New, hf, ha, ho, hpi, hfr, hpk, h1, h2]

/-- Claim C8, witness for the amended theorem: codec id 12 with all engine
steps succeeding. -/
theorem new_unsupported_compression_after_engine_setup_witness :
    (New ⟨true, true, true, true, true, true, true⟩ PixelFormatRGB 12).err =
      some .unsupportedCompression ∧
    (New ⟨true, true, true, true, true, true, true⟩ PixelFormatRGB 12).dec =
      false :=
  new_unsupported_compression_after_engine_setup
    ⟨true, true, true, true, true, true, true⟩ PixelFormatRGB 12 (by decide)
    (by decide) (by decide) (by decide) (by decide) (by decide) (by decide)
    (by decide)

/-- Claim C9: frames emitted through the scratch-buffer-and-copy pipeline
(`C.GoBytes` in `frameData`) own addresses that are pairwise distinct,
distinct from the decoder's scratch buffer, one per picture; in the final
heap each frame's buffer still holds its own picture even though every
later emission overwrote the scratch buffer (a retained frame is unchanged
by later `Decode` activity); and mutating any one frame's buffer leaves
every other frame's buffer unchanged. -/
theorem decode_frames_own_fresh_buffers (st : Store) (scratch : Nat)
    (pics : List (List Nat)) (h : scratch < st.bufs.length) :
    ((emitFrames st scratch pics).2).Pairwise (· < ·) ∧
    (∀ a ∈ (emitFrames st scratch pics).2, scratch < a) ∧
    (emitFrames st scratch pics).2.length = pics.length ∧
    (∀ ap ∈ (emitFrames st scratch pics).2.zip pics,
      readBuf (emitFrames st scratch pics).1 ap.1 = ap.2) ∧
    (∀ a b, a ∈ (emitFrames st scratch pics).2 →
      b ∈ (emitFrames st scratch pics).2 → a ≠ b → ∀ x,
        readBuf (writeBuf (emitFrames st scratch pics).1 a x) b =
          readBuf (emitFrames st scratch pics).1 b) := by
  obtain ⟨hlen, hpw, hmem, hcontent⟩ := emitFrames_spec scratch pics st h
  refine ⟨hpw, fun a ha => (hmem a ha).1, hlen, hcontent, ?_⟩
  intro a b _ _ hab x
  exact readBuf_writeBuf_ne _ a b x hab

/-- Claim C9, witness: two frames emitted through a one-buffer heap whose
scratch is address 0. -/
theorem decode_frames_own_fresh_buffers_witness :
    ((emitFrames ⟨[[9]]⟩ 0 [[1], [2]]).2).Pairwise (· < ·) ∧
    (∀ a ∈ (emitFrames ⟨[[9]]⟩ 0 [[1], [2]]).2, 0 < a) ∧
    (emitFrames ⟨[[9]]⟩ 0 [[1], [2]]).2.length = [[1], [2]].length ∧
    (∀ ap ∈ (emitFrames ⟨[[9]]⟩ 0 [[1], [2]]).2.zip [[1], [2]],
      readBuf (emitFrames ⟨[[9]]⟩ 0 [[1], [2]]).1 ap.1 = ap.2) ∧
    (∀ a b, a ∈ (emitFrames ⟨[[9]]⟩ 0 [[1], [2]]).2 →
      b ∈ (emitFrames ⟨[[9]]⟩ 0 [[1], [2]]).2 → a ≠ b → ∀ x,
        readBuf (writeBuf (emitFrames ⟨[[9]]⟩ 0 [[1], [2]]).1 a x) b =
          readBuf (emitFrames ⟨[[9]]⟩ 0 [[1], [2]]).1 b) :=
  decode_frames_own_fresh_buffers ⟨[[9]]⟩ 0 [[1], [2]] (by decide)

/-- Claim C10: a `Decode` call on an empty chunk returns the empty frame
list with no error, leaves the decoder state unchanged, and makes no
engine call at all (the call counter stays at zero). -/
theorem decode_empty_chunk_is_noop (E : Engine σ) (s : σ) (fuel : Nat) :
    Decode E fuel s [] = (s, .ok []) ∧
    Decode (countCalls E) fuel (s, 0) [] = ((s, 0), .ok []) := by
  cases fuel <;> exact ⟨rfl, rfl⟩

end H264
